import Mathlib

/-!
Verification of the `recurrente-js` webhook pipeline
(`src/api/recurrente-webhooks.ts`).

The development shallowly embeds:
* the key case converters `toSnakeCase` / `toCamelCase` (recursive
  structural transforms over a JSON-like value type, with JavaScript
  object-assignment semantics for colliding keys),
* the webhook handler registry and dispatcher
  (`userHandlers`, `registerWebhookHandler`, `handleWebhookEvent`),
* the signature verification wrapper `verifySvixSignature`, with the
  external svix library's `verify` modelled from the specification.

Strings are treated at the ASCII level: the source's key transforms use
the regexes `/([A-Z])/` and `/_([a-z])/` together with
`toLowerCase`/`toUpperCase`, which on ASCII agree with the character
maps used here.
-/

namespace Recurrente

/-- Is `c` an ASCII uppercase letter (the regex class `[A-Z]`)? -/
def isUpperAscii (c : Char) : Bool :=
  65 ≤ c.toNat && c.toNat ≤ 90

/-- Is `c` an ASCII lowercase letter (the regex class `[a-z]`)? -/
def isLowerAscii (c : Char) : Bool :=
  97 ≤ c.toNat && c.toNat ≤ 122

/-- Character-level embedding of
`key.replace(/([A-Z])/g, '_$1').toLowerCase()`: insert an underscore
before every ASCII uppercase letter, then lowercase every character. -/
def snakeChars : List Char → List Char
  | [] => []
  | c :: rest =>
    if isUpperAscii c then '_' :: Char.toLower c :: snakeChars rest
    else Char.toLower c :: snakeChars rest

/-- Character-level embedding of
`key.replace(/_([a-z])/g, (m, letter) => letter.toUpperCase())`:
left-to-right, every underscore directly followed by an ASCII lowercase
letter is replaced by that letter uppercased. -/
def camelChars : List Char → List Char
  | [] => []
  | [c] => [c]
  | c :: c2 :: rest =>
    if c = '_' && isLowerAscii c2 then Char.toUpper c2 :: camelChars rest
    else c :: camelChars (c2 :: rest)

/-- The snake_case key transform applied by `toSnakeCase` to each object key. -/
def snakeKey (s : String) : String :=
  String.mk (snakeChars s.data)

/-- The camelCase key transform applied by `toCamelCase` to each object key. -/
def camelKey (s : String) : String :=
  String.mk (camelChars s.data)

/-- JSON-like values, the payloads the converters operate on.  Objects are
insertion-ordered lists of key/value pairs, as JavaScript objects are. -/
inductive Json where
  | null : Json
  | bool (b : Bool) : Json
  | num (n : Int) : Json
  | str (s : String) : Json
  | arr (elems : List Json) : Json
  | obj (fields : List (String × Json)) : Json

/-- JavaScript property assignment `result[k] = v` on an insertion-ordered
object: an existing key keeps its position and receives the new value, a
new key is appended at the end. -/
def assignField : List (String × Json) → String → Json → List (String × Json)
  | [], k, v => [(k, v)]
  | (k2, v2) :: rest, k, v =>
    if k2 = k then (k2, v) :: rest else (k2, v2) :: assignField rest k v

/-- Replay a list of key/value pairs as JavaScript property assignments
into an initially empty object, as the source's `Object.keys(obj).reduce`
accumulator does.  Colliding keys overwrite earlier ones. -/
def dedupAssign (l : List (String × Json)) : List (String × Json) :=
  l.foldl (fun acc kv => assignField acc kv.1 kv.2) []

mutual

/-- Embedding of the source's `toSnakeCase`: arrays are converted
elementwise, objects have each key sent through `snakeKey` and each value
converted recursively, with the results assigned in order into a fresh
object; every other value is returned unchanged. -/
def toSnakeCase : Json → Json
  | Json.null => Json.null
  | Json.bool b => Json.bool b
  | Json.num n => Json.num n
  | Json.str s => Json.str s
  | Json.arr xs => Json.arr (toSnakeCaseList xs)
  | Json.obj fs => Json.obj (dedupAssign (toSnakeCaseFields fs))

/-- Map `toSnakeCase` over the elements of an array. -/
def toSnakeCaseList : List Json → List Json
  | [] => []
  | x :: xs => toSnakeCase x :: toSnakeCaseList xs

/-- The per-field transform of `toSnakeCase` before assignment replay. -/
def toSnakeCaseFields : List (String × Json) → List (String × Json)
  | [] => []
  | (k, v) :: fs => (snakeKey k, toSnakeCase v) :: toSnakeCaseFields fs

end

mutual

/-- Embedding of the source's `toCamelCase`: arrays are converted
elementwise, objects have each key sent through `camelKey` and each value
converted recursively, with the results assigned in order into a fresh
object; every other value is returned unchanged. -/
def toCamelCase : Json → Json
  | Json.null => Json.null
  | Json.bool b => Json.bool b
  | Json.num n => Json.num n
  | Json.str s => Json.str s
  | Json.arr xs => Json.arr (toCamelCaseList xs)
  | Json.obj fs => Json.obj (dedupAssign (toCamelCaseFields fs))

/-- Map `toCamelCase` over the elements of an array. -/
def toCamelCaseList : List Json → List Json
  | [] => []
  | x :: xs => toCamelCase x :: toCamelCaseList xs

/-- The per-field transform of `toCamelCase` before assignment replay. -/
def toCamelCaseFields : List (String × Json) → List (String × Json)
  | [] => []
  | (k, v) :: fs => (camelKey k, toCamelCase v) :: toCamelCaseFields fs

end

mutual

/-- Modelled from the spec: the Case Converter output contract, "a
structurally identical value (same shape, same leaf values) with every
mapping key renamed" by the key transform `f`, recursing through nested
mappings and ordered sequences and leaving non-mapping leaves untouched. -/
def specMapKeys (f : String → String) : Json → Json
  | Json.null => Json.null
  | Json.bool b => Json.bool b
  | Json.num n => Json.num n
  | Json.str s => Json.str s
  | Json.arr xs => Json.arr (specMapKeysList f xs)
  | Json.obj fs => Json.obj (specMapKeysFields f fs)

/-- Map `specMapKeys` over the elements of a sequence. -/
def specMapKeysList (f : String → String) : List Json → List Json
  | [] => []
  | x :: xs => specMapKeys f x :: specMapKeysList f xs

/-- Apply `specMapKeys` on a field list: rename every key, recurse on values. -/
def specMapKeysFields (f : String → String) :
    List (String × Json) → List (String × Json)
  | [] => []
  | (k, v) :: fs => (f k, specMapKeys f v) :: specMapKeysFields f fs

end

/-- No string occurs twice in the list (JavaScript object keys are unique). -/
def nodupStr : List String → Bool
  | [] => true
  | k :: ks => (!ks.contains k) && nodupStr ks

/-- The keys of a field list, in order. -/
def keysOf (fs : List (String × Json)) : List String :=
  fs.map Prod.fst

mutual

/-- Every object inside the value has pairwise-distinct keys, all
satisfying `p`. -/
def keysOk (p : String → Bool) : Json → Bool
  | Json.null => true
  | Json.bool _ => true
  | Json.num _ => true
  | Json.str _ => true
  | Json.arr xs => keysOkList p xs
  | Json.obj fs => nodupStr (keysOf fs) && keysOkFields p fs

/-- Check `keysOk` over the elements of an array. -/
def keysOkList (p : String → Bool) : List Json → Bool
  | [] => true
  | x :: xs => keysOk p x && keysOkList p xs

/-- Check `keysOk` over a field list: each key and recursively each value. -/
def keysOkFields (p : String → Bool) : List (String × Json) → Bool
  | [] => true
  | (k, v) :: fs => p k && keysOk p v && keysOkFields p fs

end

mutual

/-- Renaming the keys with `f` keeps them pairwise distinct at every
object inside the value. -/
def renOk (f : String → String) : Json → Bool
  | Json.null => true
  | Json.bool _ => true
  | Json.num _ => true
  | Json.str _ => true
  | Json.arr xs => renOkList f xs
  | Json.obj fs => nodupStr ((keysOf fs).map f) && renOkFields f fs

/-- Check `renOk` over the elements of an array. -/
def renOkList (f : String → String) : List Json → Bool
  | [] => true
  | x :: xs => renOk f x && renOkList f xs

/-- Check `renOk` over a field list (recursing on the values). -/
def renOkFields (f : String → String) : List (String × Json) → Bool
  | [] => true
  | (_, v) :: fs => renOk f v && renOkFields f fs

end

/-- A key follows the concatenated (camelCase) convention: ASCII
characters, no underscore separators. -/
def camelConventionKey (k : String) : Bool :=
  k.data.all (fun c => c.toNat ≤ 127 && c != '_')

/-- A key follows the separator (snake_case) convention: ASCII
characters, no uppercase letters. -/
def snakeConventionKey (k : String) : Bool :=
  k.data.all (fun c => c.toNat ≤ 127 && !isUpperAscii c)

/-- A nested demo value whose keys all follow the camelCase convention. -/
def jCamelDemo : Json :=
  Json.obj [("myKey", Json.num 1),
    ("nested", Json.obj [("innerValue", Json.arr [Json.str ("x"), Json.bool true])]),
    ("plain", Json.null)]

/-- A demo value whose keys all follow the snake_case convention. -/
def jSnakeDemo : Json :=
  Json.obj [("my_key", Json.num 1), ("customer_id", Json.str ("cus_1"))]

/-- Two distinct keys that collide after snake-casing: "aB" also becomes
"a_b". -/
def jCollide : Json :=
  Json.obj [("aB", Json.num 1), ("a_b", Json.num 2)]

/-- A verified webhook event as the dispatcher sees it: the TypeScript
union `RecurrenteWebhookEvent` always carries its discriminating
`eventType` string; the rest of the event is kept as structured data. -/
structure RecurrenteWebhookEvent where
  eventType : String
  payload : Json

/-- A registered handler, `(event: T) => void` with JavaScript exceptions
made explicit: it receives the event and either completes normally or
faults with an exception message. -/
def Handler : Type :=
  RecurrenteWebhookEvent → Except String Unit

/-- The handler registry: event-type tags mapped to at most one handler
each, in insertion order. -/
def Registry : Type :=
  List (String × Handler)

/-- The default console-logging handlers complete normally on every event
(the log side effect lies outside the model). -/
def defaultHandler : Handler :=
  fun _ => Except.ok ()

/-- Embedding of the initial `userHandlers` map: each of the six known
event types starts out mapped to a default logging handler. -/
def userHandlers : Registry :=
  [("payment_intent.succeeded", defaultHandler),
    ("payment_intent.failed", defaultHandler),
    ("subscription.create", defaultHandler),
    ("subscription.past_due", defaultHandler),
    ("subscription.paused", defaultHandler),
    ("subscription.cancel", defaultHandler)]

/-- The six wire `eventType` values of the event taxonomy. -/
def knownEventTypes : List String :=
  ["payment_intent.succeeded", "payment_intent.failed",
    "subscription.create", "subscription.past_due",
    "subscription.paused", "subscription.cancel"]

/-- The lookup `userHandlers[event.eventType]`. -/
def lookupHandler : Registry → String → Option Handler
  | [], _ => none
  | (k, h) :: rest, t => if k = t then some h else lookupHandler rest t

/-- Embedding of `registerWebhookHandler`: the assignment
`userHandlers[eventType] = handler` overwrites the handler stored for the
tag if present and appends the tag otherwise; it never fails. -/
def registerWebhookHandler (eventType : String) (handler : Handler) :
    Registry → Registry
  | [] => [(eventType, handler)]
  | (k, h) :: rest =>
    if k = eventType then (k, handler) :: rest
    else (k, h) :: registerWebhookHandler eventType handler rest

/-- The observable outcome of one `handleWebhookEvent` call: a normal
return, the unregistered-event-type error, or a propagated handler
fault. -/
inductive DispatchOutcome where
  | ok : DispatchOutcome
  | noHandler (msg : String) : DispatchOutcome
  | handlerFault (msg : String) : DispatchOutcome

/-- The outcome of invoking one handler on one event. -/
def handlerRun (h : Handler) (e : RecurrenteWebhookEvent) : DispatchOutcome :=
  match h e with
  | Except.ok _ => DispatchOutcome.ok
  | Except.error f => DispatchOutcome.handlerFault f

/-- Embedding of `handleWebhookEvent`: look the event's type up in the
registry; if a handler is present, invoke it synchronously with the event
(a handler fault propagates to the caller), otherwise throw the error
naming the missing tag.  The second component records the handler
invocations the call performs. -/
def handleWebhookEvent (reg : Registry) (event : RecurrenteWebhookEvent) :
    DispatchOutcome × List (Handler × RecurrenteWebhookEvent) :=
  match lookupHandler reg event.eventType with
  | some handler => (handlerRun handler event, [(handler, event)])
  | none =>
    (DispatchOutcome.noHandler
      ("No handler registered for event type: " ++ event.eventType), [])

/-- A demo event of a type outside the taxonomy. -/
def eventUnknown : RecurrenteWebhookEvent :=
  ⟨"unknown.type", Json.null⟩

/-- A demo `subscription.cancel` event. -/
def eventCancel : RecurrenteWebhookEvent :=
  ⟨"subscription.cancel", Json.obj [("customerId", Json.str ("cus_1"))]⟩

/-- A demo `payment_intent.succeeded` event. -/
def eventPi : RecurrenteWebhookEvent :=
  ⟨"payment_intent.succeeded", Json.null⟩

/-- A demo handler that completes normally. -/
def hDemo1 : Handler :=
  fun _ => Except.ok ()

/-- A demo handler that faults. -/
def hDemo2 : Handler :=
  fun _ => Except.error ("second handler ran")

/-- First-match field lookup on a field list. -/
def lookupField : List (String × Json) → String → Option Json
  | [], _ => none
  | (k, v) :: fs, key => if k = key then some v else lookupField fs key

/-- JavaScript property read `j[key]` on an object value. -/
def getField : Json → String → Option Json
  | Json.obj fs, key => lookupField fs key
  | _, _ => none

/-- The three svix headers, each possibly absent from the request. -/
structure SvixHeaders where
  svixId : Option String
  svixTimestamp : Option String
  svixSignature : Option String

/-- The failure causes inside the svix verification step. -/
inductive SvixError where
  | missingHeaders : SvixError
  | badTimestamp : SvixError
  | staleTimestamp : SvixError
  | noSignatureMatch : SvixError
  | parseFailure : SvixError

/-- Split a character list on a separator character. -/
def splitOnChar (sep : Char) : List Char → List (List Char)
  | [] => [[]]
  | c :: rest =>
    let r := splitOnChar sep rest
    if c = sep then [] :: r
    else
      match r with
      | [] => [[c]]
      | g :: gs => (c :: g) :: gs

/-- The space-separated entries of the svix-signature header. -/
def signatureEntries (s : String) : List String :=
  (splitOnChar ' ' s.data).map (fun cs => String.mk cs)

/-- Accumulator for `parseTimestamp`. -/
def digitsToNatAux : List Char → Nat → Option Nat
  | [], acc => some acc
  | c :: rest, acc =>
    if 48 ≤ c.toNat && c.toNat ≤ 57 then
      digitsToNatAux rest (acc * 10 + (c.toNat - 48))
    else none

/-- Modelled from the spec: the timestamp parser of the svix model — the
timestamp header must be a digit string, read as a number. -/
def parseTimestamp (s : String) : Option Int :=
  match s.data with
  | [] => none
  | l => (digitsToNatAux l 0).map (fun n => Int.ofNat n)

/-- Modelled from the spec: the svix library's `Webhook.verify`
(`new Webhook(signingSecret).verify(payload, svixHeaders)`), an external
dependency whose code is not part of this repository.  Per the
specification it requires the three headers to be present, rejects
timestamps outside the tolerance window, recomputes the expected
signature over the canonical string `id.timestamp.payload` with a keyed
hash seeded by the secret, accepts if any space-separated versioned
entry of the signature header matches, and then parses the payload as
structured data.  The keyed hash `mac` and the payload parser `parse`
are parameters of the model. -/
def svixVerify (mac : String → String → String)
    (parse : String → Option Json) (secret : String) (now : Int)
    (tol : Nat) (payload : String) (h : SvixHeaders) :
    Except SvixError Json :=
  match h.svixId, h.svixTimestamp, h.svixSignature with
  | some msgId, some ts, some sigHeader =>
    match parseTimestamp ts with
    | none => Except.error SvixError.badTimestamp
    | some t =>
      if (now - t).natAbs ≤ tol then
        if (signatureEntries sigHeader).any
            (fun entry =>
              entry = "v1," ++ mac secret (msgId ++ "." ++ ts ++ "." ++ payload)) then
          match parse payload with
          | some j => Except.ok j
          | none => Except.error SvixError.parseFailure
        else Except.error SvixError.noSignatureMatch
      else Except.error SvixError.staleTimestamp
  | _, _, _ => Except.error SvixError.missingHeaders

/-- The errors `verifySvixSignature` itself throws. -/
inductive VerifyError where
  | missingSecret : VerifyError
  | invalidSignature : VerifyError

/-- Embedding of `verifySvixSignature`: read the configured signing
secret (absent or empty, i.e. falsy, gives the missing-secret error),
then run the svix verification and the snake-to-camel key conversion
inside a try/catch whose handler rethrows every failure as the single
generic invalid-signature error. -/
def verifySvixSignature (mac : String → String → String)
    (parse : String → Option Json) (secretEnv : Option String)
    (now : Int) (tol : Nat) (payload : String) (headers : SvixHeaders) :
    Except VerifyError Json :=
  if secretEnv.getD ("") = "" then Except.error VerifyError.missingSecret
  else
    match svixVerify mac parse (secretEnv.getD ("")) now tol payload headers with
    | Except.ok event => Except.ok (toCamelCase event)
    | Except.error _ => Except.error VerifyError.invalidSignature

/-- A demo keyed hash for witnesses (any function of secret and message
serves the model). -/
def macDemo (secret msg : String) : String :=
  secret ++ "#" ++ msg

/-- A demo parser that fails on every payload. -/
def parseNone (_s : String) : Option Json :=
  none

/-- A demo parser returning the example payload of the specification. -/
def parseDemo (_s : String) : Option Json :=
  some (Json.obj [("event_type", Json.str ("subscription.cancel")),
    ("customer_id", Json.str ("cus_1"))])

/-- Headers whose signature matches `macDemo` for secret "whsec_test",
id "id1", timestamp "0" and payload "oops". -/
def headersGoodDemo : SvixHeaders :=
  ⟨some ("id1"), some ("0"),
    some ("v1," ++ macDemo ("whsec_test") ("id1" ++ "." ++ "0" ++ "." ++ "oops"))⟩

/-- Headers carrying a signature that matches nothing. -/
def headersBadSigDemo : SvixHeaders :=
  ⟨some ("id1"), some ("0"), some ("v1,wrong")⟩

end Recurrente

namespace Recurrente

theorem toLower_eq_of_not_upper {c : Char} (h : isUpperAscii c = false) :
    Char.toLower c = c := by
  unfold Char.toLower
  rw [if_neg]
  simp only [isUpperAscii, Bool.and_eq_false_iff, decide_eq_false_iff_not,
    Nat.not_le] at h
  intro hc
  obtain ⟨h1, h2⟩ := hc
  rcases h with h | h <;> omega

theorem toNat_injective {c d : Char} (h : c.toNat = d.toNat) : c = d := by
  rw [← Char.ofNat_toNat c, ← Char.ofNat_toNat d, h]

theorem toUpper_toLower_of_upper {c : Char} (h : isUpperAscii c = true) :
    Char.toUpper (Char.toLower c) = c := by
  simp only [isUpperAscii, Bool.and_eq_true, decide_eq_true_eq] at h
  obtain ⟨h1, h2⟩ := h
  have hc : c = Char.ofNat c.toNat := (Char.ofNat_toNat c).symm
  rw [hc]
  obtain ⟨n, hn⟩ : ∃ n, c.toNat = n := ⟨_, rfl⟩
  rw [hn] at h1 h2 ⊢
  interval_cases n <;> decide

theorem toLower_lower_of_upper {c : Char} (h : isUpperAscii c = true) :
    isLowerAscii (Char.toLower c) = true := by
  simp only [isUpperAscii, Bool.and_eq_true, decide_eq_true_eq] at h
  obtain ⟨h1, h2⟩ := h
  have hc : c = Char.ofNat c.toNat := (Char.ofNat_toNat c).symm
  rw [hc]
  obtain ⟨n, hn⟩ : ∃ n, c.toNat = n := ⟨_, rfl⟩
  rw [hn] at h1 h2 ⊢
  interval_cases n <;> decide

theorem toUpper_upper_of_lower {c : Char} (h : isLowerAscii c = true) :
    isUpperAscii (Char.toUpper c) = true := by
  simp only [isLowerAscii, Bool.and_eq_true, decide_eq_true_eq] at h
  obtain ⟨h1, h2⟩ := h
  have hc : c = Char.ofNat c.toNat := (Char.ofNat_toNat c).symm
  rw [hc]
  obtain ⟨n, hn⟩ : ∃ n, c.toNat = n := ⟨_, rfl⟩
  rw [hn] at h1 h2 ⊢
  interval_cases n <;> decide

theorem toLower_toUpper_of_lower {c : Char} (h : isLowerAscii c = true) :
    Char.toLower (Char.toUpper c) = c := by
  simp only [isLowerAscii, Bool.and_eq_true, decide_eq_true_eq] at h
  obtain ⟨h1, h2⟩ := h
  have hc : c = Char.ofNat c.toNat := (Char.ofNat_toNat c).symm
  rw [hc]
  obtain ⟨n, hn⟩ : ∃ n, c.toNat = n := ⟨_, rfl⟩
  rw [hn] at h1 h2 ⊢
  interval_cases n <;> decide

theorem snakeChars_cons_of_upper {c : Char} (h : isUpperAscii c = true)
    (l : List Char) :
    snakeChars (c :: l) = '_' :: Char.toLower c :: snakeChars l := by
  simp [snakeChars, h]

theorem snakeChars_cons_of_not_upper {c : Char} (h : isUpperAscii c = false)
    (l : List Char) :
    snakeChars (c :: l) = c :: snakeChars l := by
  simp [snakeChars, h, toLower_eq_of_not_upper h]

theorem camelChars_cons_of_ne {c : Char} (h : c ≠ '_') (l : List Char) :
    camelChars (c :: l) = c :: camelChars l := by
  cases l with
  | nil => rfl
  | cons c2 rest => simp [camelChars, h]

theorem camelChars_cons_underscore {c2 : Char} (h : isLowerAscii c2 = true)
    (l : List Char) :
    camelChars ('_' :: c2 :: l) = Char.toUpper c2 :: camelChars l := by
  simp [camelChars, h]

theorem camel_snake_chars :
    (l : List Char) → (∀ c ∈ l, c ≠ '_') →
    camelChars (snakeChars l) = l
  | [], _ => rfl
  | c :: l, h => by
    have hc : c ≠ '_' := h c (List.mem_cons_self c l)
    have hl : ∀ d ∈ l, d ≠ '_' := fun d hd => h d (List.mem_cons_of_mem c hd)
    by_cases hu : isUpperAscii c = true
    · rw [snakeChars_cons_of_upper hu,
        camelChars_cons_underscore (toLower_lower_of_upper hu),
        toUpper_toLower_of_upper hu, camel_snake_chars l hl]
    · rw [snakeChars_cons_of_not_upper (Bool.eq_false_iff.mpr hu),
        camelChars_cons_of_ne hc, camel_snake_chars l hl]

theorem snake_camel_chars :
    (l : List Char) → (∀ c ∈ l, isUpperAscii c = false) →
    snakeChars (camelChars l) = l
  | [], _ => rfl
  | [c], h => by
    rw [show camelChars [c] = [c] from rfl,
      snakeChars_cons_of_not_upper (h c (List.mem_singleton_self c))]
    rfl
  | c :: c2 :: rest, h => by
    have hc : isUpperAscii c = false := h c (by simp)
    have hrest : ∀ d ∈ rest, isUpperAscii d = false :=
      fun d hd => h d (by simp [hd])
    have hc2rest : ∀ d ∈ c2 :: rest, isUpperAscii d = false :=
      fun d hd => h d (List.mem_cons_of_mem c hd)
    by_cases hg : c = '_' ∧ isLowerAscii c2 = true
    · obtain ⟨hce, hc2⟩ := hg
      rw [hce, camelChars_cons_underscore hc2,
        snakeChars_cons_of_upper (toUpper_upper_of_lower hc2),
        toLower_toUpper_of_lower hc2, snake_camel_chars rest hrest]
    · have hne : camelChars (c :: c2 :: rest) = c :: camelChars (c2 :: rest) := by
        rw [camelChars, if_neg]
        simp only [Bool.and_eq_true, decide_eq_true_eq]
        exact hg
      rw [hne, snakeChars_cons_of_not_upper hc,
        snake_camel_chars (c2 :: rest) hc2rest]

theorem camelKey_snakeKey {k : String} (h : camelConventionKey k = true) :
    camelKey (snakeKey k) = k := by
  have hk : ∀ c ∈ k.data, c ≠ '_' := by
    intro c hcmem
    have := List.all_eq_true.mp h c hcmem
    simp only [Bool.and_eq_true, bne_iff_ne, ne_eq] at this
    exact this.2
  show String.mk (camelChars (snakeChars k.data)) = k
  rw [camel_snake_chars k.data hk]

theorem snakeKey_camelKey {k : String} (h : snakeConventionKey k = true) :
    snakeKey (camelKey k) = k := by
  have hk : ∀ c ∈ k.data, isUpperAscii c = false := by
    intro c hcmem
    have := List.all_eq_true.mp h c hcmem
    simp only [Bool.and_eq_true, Bool.not_eq_eq_eq_not, Bool.not_true] at this
    exact this.2
  show String.mk (snakeChars (camelChars k.data)) = k
  rw [snake_camel_chars k.data hk]

theorem contains_false_iff {k : String} :
    (ks : List String) → (ks.contains k = false ↔ k ∉ ks) := by
  intro ks
  simp

theorem assignField_append {k : String} {v : Json} :
    (l : List (String × Json)) → (∀ kv ∈ l, kv.1 ≠ k) →
    assignField l k v = l ++ [(k, v)]
  | [], _ => rfl
  | (k2, v2) :: rest, h => by
    have hk2 : k2 ≠ k := h (k2, v2) (List.mem_cons_self _ _)
    have hrest : ∀ kv ∈ rest, kv.1 ≠ k :=
      fun kv hkv => h kv (List.mem_cons_of_mem _ hkv)
    simp only [assignField, if_neg hk2, assignField_append rest hrest,
      List.cons_append]

theorem foldl_assignField :
    (l : List (String × Json)) → (acc : List (String × Json)) →
    nodupStr (l.map Prod.fst) = true →
    (∀ kv ∈ l, ∀ kv2 ∈ acc, kv2.1 ≠ kv.1) →
    List.foldl (fun a kv => assignField a kv.1 kv.2) acc l = acc ++ l
  | [], acc, _, _ => by simp
  | (k, v) :: rest, acc, hnd, hdisj => by
    have hnd2 : ((rest.map Prod.fst).contains k = false) ∧
        nodupStr (rest.map Prod.fst) = true := by
      simpa [nodupStr, Bool.and_eq_true] using hnd
    have hknotin : ∀ kv ∈ rest, kv.1 ≠ k := by
      intro kv hkv
      intro hkk
      exact (contains_false_iff _).mp hnd2.1
        (hkk ▸ List.mem_map_of_mem Prod.fst hkv)
    have hstep : assignField acc k v = acc ++ [(k, v)] :=
      assignField_append acc
        (fun kv2 hkv2 => hdisj (k, v) (List.mem_cons_self _ _) kv2 hkv2)
    have hdisj2 : ∀ kv ∈ rest, ∀ kv2 ∈ acc ++ [(k, v)], kv2.1 ≠ kv.1 := by
      intro kv hkv kv2 hkv2
      rcases List.mem_append.mp hkv2 with h2 | h2
      · exact hdisj kv (List.mem_cons_of_mem _ hkv) kv2 h2
      · have : kv2 = (k, v) := List.mem_singleton.mp h2
        subst this
        exact fun hkk => (hknotin kv hkv) hkk.symm
    calc List.foldl (fun a kv => assignField a kv.1 kv.2) acc ((k, v) :: rest)
        = List.foldl (fun a kv => assignField a kv.1 kv.2)
            (assignField acc k v) rest := rfl
      _ = (acc ++ [(k, v)]) ++ rest := by
            rw [hstep]
            exact foldl_assignField rest (acc ++ [(k, v)]) hnd2.2 hdisj2
      _ = acc ++ ((k, v) :: rest) := by simp

theorem dedupAssign_eq_self {l : List (String × Json)}
    (h : nodupStr (l.map Prod.fst) = true) : dedupAssign l = l := by
  have := foldl_assignField l [] h (by simp)
  simpa [dedupAssign] using this

theorem keysOf_toSnakeCaseFields :
    (fs : List (String × Json)) →
    keysOf (toSnakeCaseFields fs) = (keysOf fs).map snakeKey
  | [] => rfl
  | (k, v) :: fs => by
    simp only [toSnakeCaseFields, keysOf, List.map_cons]
    exact congrArg _ (keysOf_toSnakeCaseFields fs)

theorem keysOf_toCamelCaseFields :
    (fs : List (String × Json)) →
    keysOf (toCamelCaseFields fs) = (keysOf fs).map camelKey
  | [] => rfl
  | (k, v) :: fs => by
    simp only [toCamelCaseFields, keysOf, List.map_cons]
    exact congrArg _ (keysOf_toCamelCaseFields fs)

theorem keysOkFields_keys {p : String → Bool} :
    (fs : List (String × Json)) → keysOkFields p fs = true →
    ∀ k ∈ keysOf fs, p k = true
  | [], _, k, hk => absurd hk (List.not_mem_nil k)
  | (k2, v2) :: fs, h, k, hk => by
    have h3 : p k2 = true ∧ keysOk p v2 = true ∧ keysOkFields p fs = true := by
      simpa [keysOkFields, Bool.and_eq_true, and_assoc] using h
    rcases List.mem_cons.mp hk with h4 | h4
    · exact h4 ▸ h3.1
    · exact keysOkFields_keys fs h3.2.2 k h4

theorem nodupStr_map_of_inj {p : String → Bool} {f : String → String}
    (hinj : ∀ a b, p a = true → p b = true → f a = f b → a = b) :
    (ks : List String) → (∀ k ∈ ks, p k = true) →
    nodupStr ks = true → nodupStr (ks.map f) = true
  | [], _, _ => rfl
  | k :: ks, hp, hnd => by
    have hnd2 : (ks.contains k = false) ∧ nodupStr ks = true := by
      simpa [nodupStr, Bool.and_eq_true] using hnd
    have hrec := nodupStr_map_of_inj hinj ks
      (fun a ha => hp a (List.mem_cons_of_mem _ ha)) hnd2.2
    have hnotmem : ¬ f k ∈ ks.map f := by
      intro hmem
      obtain ⟨a, hamem, hfa⟩ := List.mem_map.mp hmem
      have : a = k := hinj a k (hp a (List.mem_cons_of_mem _ hamem))
        (hp k (List.mem_cons_self _ _)) hfa
      exact (contains_false_iff ks).mp hnd2.1 (this ▸ hamem)
    simp only [List.map_cons, nodupStr, Bool.and_eq_true, hrec,
      and_true, Bool.not_eq_true', contains_false_iff]
    exact hnotmem

mutual

theorem toSnakeCase_refines :
    (j : Json) → renOk snakeKey j = true →
    toSnakeCase j = specMapKeys snakeKey j
  | Json.null, _ => rfl
  | Json.bool _, _ => rfl
  | Json.num _, _ => rfl
  | Json.str _, _ => rfl
  | Json.arr xs, h => by
    simp only [toSnakeCase, specMapKeys]
    exact congrArg _ (toSnakeCase_refines_list xs (by simpa [renOk] using h))
  | Json.obj fs, h => by
    have h2 : nodupStr ((keysOf fs).map snakeKey) = true ∧
        renOkFields snakeKey fs = true := by
      simpa [renOk, Bool.and_eq_true] using h
    have hdedup : dedupAssign (toSnakeCaseFields fs) = toSnakeCaseFields fs := by
      apply dedupAssign_eq_self
      show nodupStr (keysOf (toSnakeCaseFields fs)) = true
      rw [keysOf_toSnakeCaseFields fs]
      exact h2.1
    simp only [toSnakeCase, specMapKeys, hdedup]
    exact congrArg _ (toSnakeCase_refines_fields fs h2.2)

theorem toSnakeCase_refines_list :
    (xs : List Json) → renOkList snakeKey xs = true →
    toSnakeCaseList xs = specMapKeysList snakeKey xs
  | [], _ => rfl
  | x :: xs, h => by
    have h2 : renOk snakeKey x = true ∧ renOkList snakeKey xs = true := by
      simpa [renOkList, Bool.and_eq_true] using h
    simp only [toSnakeCaseList, specMapKeysList]
    rw [toSnakeCase_refines x h2.1, toSnakeCase_refines_list xs h2.2]

theorem toSnakeCase_refines_fields :
    (fs : List (String × Json)) → renOkFields snakeKey fs = true →
    toSnakeCaseFields fs = specMapKeysFields snakeKey fs
  | [], _ => rfl
  | (k, v) :: fs, h => by
    have h2 : renOk snakeKey v = true ∧ renOkFields snakeKey fs = true := by
      simpa [renOkFields, Bool.and_eq_true] using h
    simp only [toSnakeCaseFields, specMapKeysFields]
    rw [toSnakeCase_refines v h2.1, toSnakeCase_refines_fields fs h2.2]

end

mutual

theorem toCamelCase_refines :
    (j : Json) → renOk camelKey j = true →
    toCamelCase j = specMapKeys camelKey j
  | Json.null, _ => rfl
  | Json.bool _, _ => rfl
  | Json.num _, _ => rfl
  | Json.str _, _ => rfl
  | Json.arr xs, h => by
    simp only [toCamelCase, specMapKeys]
    exact congrArg _ (toCamelCase_refines_list xs (by simpa [renOk] using h))
  | Json.obj fs, h => by
    have h2 : nodupStr ((keysOf fs).map camelKey) = true ∧
        renOkFields camelKey fs = true := by
      simpa [renOk, Bool.and_eq_true] using h
    have hdedup : dedupAssign (toCamelCaseFields fs) = toCamelCaseFields fs := by
      apply dedupAssign_eq_self
      show nodupStr (keysOf (toCamelCaseFields fs)) = true
      rw [keysOf_toCamelCaseFields fs]
      exact h2.1
    simp only [toCamelCase, specMapKeys, hdedup]
    exact congrArg _ (toCamelCase_refines_fields fs h2.2)

theorem toCamelCase_refines_list :
    (xs : List Json) → renOkList camelKey xs = true →
    toCamelCaseList xs = specMapKeysList camelKey xs
  | [], _ => rfl
  | x :: xs, h => by
    have h2 : renOk camelKey x = true ∧ renOkList camelKey xs = true := by
      simpa [renOkList, Bool.and_eq_true] using h
    simp only [toCamelCaseList, specMapKeysList]
    rw [toCamelCase_refines x h2.1, toCamelCase_refines_list xs h2.2]

theorem toCamelCase_refines_fields :
    (fs : List (String × Json)) → renOkFields camelKey fs = true →
    toCamelCaseFields fs = specMapKeysFields camelKey fs
  | [], _ => rfl
  | (k, v) :: fs, h => by
    have h2 : renOk camelKey v = true ∧ renOkFields camelKey fs = true := by
      simpa [renOkFields, Bool.and_eq_true] using h
    simp only [toCamelCaseFields, specMapKeysFields]
    rw [toCamelCase_refines v h2.1, toCamelCase_refines_fields fs h2.2]

end

theorem snakeKey_inj_on_camel {a b : String}
    (ha : camelConventionKey a = true) (hb : camelConventionKey b = true)
    (hab : snakeKey a = snakeKey b) : a = b := by
  rw [← camelKey_snakeKey ha, hab, camelKey_snakeKey hb]

theorem camelKey_inj_on_snake {a b : String}
    (ha : snakeConventionKey a = true) (hb : snakeConventionKey b = true)
    (hab : camelKey a = camelKey b) : a = b := by
  rw [← snakeKey_camelKey ha, hab, snakeKey_camelKey hb]

mutual

theorem camel_snake_roundtrip :
    (j : Json) → keysOk camelConventionKey j = true →
    toCamelCase (toSnakeCase j) = j
  | Json.null, _ => rfl
  | Json.bool _, _ => rfl
  | Json.num _, _ => rfl
  | Json.str _, _ => rfl
  | Json.arr xs, h => by
    simp only [toSnakeCase, toCamelCase]
    exact congrArg _ (camel_snake_roundtrip_list xs (by simpa [keysOk] using h))
  | Json.obj fs, h => by
    have h2 : nodupStr (keysOf fs) = true ∧
        keysOkFields camelConventionKey fs = true := by
      simpa [keysOk, Bool.and_eq_true] using h
    have hallp : ∀ k ∈ keysOf fs, camelConventionKey k = true :=
      keysOkFields_keys fs h2.2
    have hnd2 : nodupStr ((keysOf fs).map snakeKey) = true :=
      nodupStr_map_of_inj (fun a b ha hb => snakeKey_inj_on_camel ha hb)
        (keysOf fs) hallp h2.1
    have hdedupS : dedupAssign (toSnakeCaseFields fs) = toSnakeCaseFields fs := by
      apply dedupAssign_eq_self
      show nodupStr (keysOf (toSnakeCaseFields fs)) = true
      rw [keysOf_toSnakeCaseFields fs]
      exact hnd2
    have hfields : toCamelCaseFields (toSnakeCaseFields fs) = fs :=
      camel_snake_roundtrip_fields fs h2.2
    simp only [toSnakeCase, toCamelCase, hdedupS, hfields]
    rw [show dedupAssign fs = fs from dedupAssign_eq_self h2.1]

theorem camel_snake_roundtrip_list :
    (xs : List Json) → keysOkList camelConventionKey xs = true →
    toCamelCaseList (toSnakeCaseList xs) = xs
  | [], _ => rfl
  | x :: xs, h => by
    have h2 : keysOk camelConventionKey x = true ∧
        keysOkList camelConventionKey xs = true := by
      simpa [keysOkList, Bool.and_eq_true] using h
    simp only [toSnakeCaseList, toCamelCaseList]
    rw [camel_snake_roundtrip x h2.1, camel_snake_roundtrip_list xs h2.2]

theorem camel_snake_roundtrip_fields :
    (fs : List (String × Json)) → keysOkFields camelConventionKey fs = true →
    toCamelCaseFields (toSnakeCaseFields fs) = fs
  | [], _ => rfl
  | (k, v) :: fs, h => by
    have h2 : camelConventionKey k = true ∧ keysOk camelConventionKey v = true ∧
        keysOkFields camelConventionKey fs = true := by
      simpa [keysOkFields, Bool.and_eq_true, and_assoc] using h
    simp only [toSnakeCaseFields, toCamelCaseFields]
    rw [camelKey_snakeKey h2.1, camel_snake_roundtrip v h2.2.1,
      camel_snake_roundtrip_fields fs h2.2.2]

end

mutual

theorem snake_camel_roundtrip :
    (j : Json) → keysOk snakeConventionKey j = true →
    toSnakeCase (toCamelCase j) = j
  | Json.null, _ => rfl
  | Json.bool _, _ => rfl
  | Json.num _, _ => rfl
  | Json.str _, _ => rfl
  | Json.arr xs, h => by
    simp only [toSnakeCase, toCamelCase]
    exact congrArg _ (snake_camel_roundtrip_list xs (by simpa [keysOk] using h))
  | Json.obj fs, h => by
    have h2 : nodupStr (keysOf fs) = true ∧
        keysOkFields snakeConventionKey fs = true := by
      simpa [keysOk, Bool.and_eq_true] using h
    have hallp : ∀ k ∈ keysOf fs, snakeConventionKey k = true :=
      keysOkFields_keys fs h2.2
    have hnd2 : nodupStr ((keysOf fs).map camelKey) = true :=
      nodupStr_map_of_inj (fun a b ha hb => camelKey_inj_on_snake ha hb)
        (keysOf fs) hallp h2.1
    have hdedupC : dedupAssign (toCamelCaseFields fs) = toCamelCaseFields fs := by
      apply dedupAssign_eq_self
      show nodupStr (keysOf (toCamelCaseFields fs)) = true
      rw [keysOf_toCamelCaseFields fs]
      exact hnd2
    have hfields : toSnakeCaseFields (toCamelCaseFields fs) = fs :=
      snake_camel_roundtrip_fields fs h2.2
    simp only [toSnakeCase, toCamelCase, hdedupC, hfields]
    rw [show dedupAssign fs = fs from dedupAssign_eq_self h2.1]

theorem snake_camel_roundtrip_list :
    (xs : List Json) → keysOkList snakeConventionKey xs = true →
    toSnakeCaseList (toCamelCaseList xs) = xs
  | [], _ => rfl
  | x :: xs, h => by
    have h2 : keysOk snakeConventionKey x = true ∧
        keysOkList snakeConventionKey xs = true := by
      simpa [keysOkList, Bool.and_eq_true] using h
    simp only [toSnakeCaseList, toCamelCaseList]
    rw [snake_camel_roundtrip x h2.1, snake_camel_roundtrip_list xs h2.2]

theorem snake_camel_roundtrip_fields :
    (fs : List (String × Json)) → keysOkFields snakeConventionKey fs = true →
    toSnakeCaseFields (toCamelCaseFields fs) = fs
  | [], _ => rfl
  | (k, v) :: fs, h => by
    have h2 : snakeConventionKey k = true ∧ keysOk snakeConventionKey v = true ∧
        keysOkFields snakeConventionKey fs = true := by
      simpa [keysOkFields, Bool.and_eq_true, and_assoc] using h
    simp only [toSnakeCaseFields, toCamelCaseFields]
    rw [snakeKey_camelKey h2.1, snake_camel_roundtrip v h2.2.1,
      snake_camel_roundtrip_fields fs h2.2.2]

end

/-- C9: for every mapping input whose keys already consistently follow the
respective naming convention, `toCamelCase (toSnakeCase x) = x` when the
keys follow the concatenated (camelCase) convention, and
`toSnakeCase (toCamelCase x) = x` when the keys follow the separator
(snake_case) convention. -/
theorem C9_roundtrip_idempotence (x : Json) :
    (keysOk camelConventionKey x = true → toCamelCase (toSnakeCase x) = x) ∧
    (keysOk snakeConventionKey x = true → toSnakeCase (toCamelCase x) = x) :=
  ⟨camel_snake_roundtrip x, snake_camel_roundtrip x⟩

/-- Witness for C9 at concrete camelCase and snake_case inputs. -/
theorem C9_roundtrip_idempotence_witness :
    (keysOk camelConventionKey jCamelDemo = true ∧
      toCamelCase (toSnakeCase jCamelDemo) = jCamelDemo) ∧
    (keysOk snakeConventionKey jSnakeDemo = true ∧
      toSnakeCase (toCamelCase jSnakeDemo) = jSnakeDemo) :=
  ⟨⟨rfl, (C9_roundtrip_idempotence jCamelDemo).1 rfl⟩,
    ⟨rfl, (C9_roundtrip_idempotence jSnakeDemo).2 rfl⟩⟩

/-- C10 counterexample: on the input `{aB: 1, a_b: 2}` both keys rename to
"a_b", the later assignment overwrites the earlier one, and `toSnakeCase`
returns an object with one field instead of a structurally identical
object with every key renamed. -/
theorem C10_structural_counterexample :
    toSnakeCase jCollide = Json.obj [("a_b", Json.num 2)] ∧
    specMapKeys snakeKey jCollide =
      Json.obj [("a_b", Json.num 1), ("a_b", Json.num 2)] ∧
    toSnakeCase jCollide ≠ specMapKeys snakeKey jCollide := by
  refine ⟨rfl, rfl, ?_⟩
  intro h
  have h2 : Json.obj [("a_b", Json.num 2)] =
      Json.obj [("a_b", Json.num 1), ("a_b", Json.num 2)] := h
  injection h2 with hl
  simp at hl

/-- C10 (amended): for every input at which the renamed keys remain
pairwise distinct at every nesting level, `toSnakeCase` and `toCamelCase`
each return the structurally identical value with every mapping key
renamed by the respective key transform and all leaf values unchanged
(`specMapKeys`); when two keys of one object rename to the same key the
later field overwrites the earlier one instead. -/
theorem C10_structural_conversion_amended (x : Json) :
    (renOk snakeKey x = true → toSnakeCase x = specMapKeys snakeKey x) ∧
    (renOk camelKey x = true → toCamelCase x = specMapKeys camelKey x) :=
  ⟨toSnakeCase_refines x, toCamelCase_refines x⟩

/-- Witness for the amended C10 at concrete inputs. -/
theorem C10_structural_conversion_amended_witness :
    (renOk snakeKey jCamelDemo = true ∧
      toSnakeCase jCamelDemo = specMapKeys snakeKey jCamelDemo) ∧
    (renOk camelKey jSnakeDemo = true ∧
      toCamelCase jSnakeDemo = specMapKeys camelKey jSnakeDemo) :=
  ⟨⟨rfl, (C10_structural_conversion_amended jCamelDemo).1 rfl⟩,
    ⟨rfl, (C10_structural_conversion_amended jSnakeDemo).2 rfl⟩⟩

theorem lookupHandler_eq_none_of_not_mem {t : String} :
    (reg : Registry) → t ∉ reg.map Prod.fst → lookupHandler reg t = none
  | [], _ => rfl
  | (k, h) :: rest, hmem => by
    have hk : k ≠ t := by
      intro hkt
      exact hmem (by simp [hkt])
    have hrest : t ∉ rest.map Prod.fst := by
      intro hmem2
      exact hmem (by simp [hmem2])
    simp only [lookupHandler, if_neg hk]
    exact lookupHandler_eq_none_of_not_mem rest hrest

theorem lookupHandler_register_same {t : String} {h : Handler} :
    (reg : Registry) →
    lookupHandler (registerWebhookHandler t h reg) t = some h
  | [] => by simp [registerWebhookHandler, lookupHandler]
  | (k, h2) :: rest => by
    by_cases hk : k = t
    · simp [registerWebhookHandler, lookupHandler, hk]
    · simp only [registerWebhookHandler, if_neg hk, lookupHandler]
      exact lookupHandler_register_same rest

/-- C1: dispatching an event whose type is not among the registered tags
throws the error naming that type and invokes no handler; the tag is
absent from the registry (lookup yields `none`) rather than mapped to a
no-op handler. -/
theorem C1_unregistered_event_type (reg : Registry)
    (e : RecurrenteWebhookEvent) (h : e.eventType ∉ reg.map Prod.fst) :
    lookupHandler reg e.eventType = none ∧
    handleWebhookEvent reg e =
      (DispatchOutcome.noHandler
        ("No handler registered for event type: " ++ e.eventType), []) := by
  have hl := lookupHandler_eq_none_of_not_mem reg h
  exact ⟨hl, by simp [handleWebhookEvent, hl]⟩

/-- Witness for C1: the initial registry holds no handler for
"unknown.type", and dispatching such an event throws without invoking
anything. -/
theorem C1_unregistered_event_type_witness :
    eventUnknown.eventType ∉ userHandlers.map Prod.fst ∧
    handleWebhookEvent userHandlers eventUnknown =
      (DispatchOutcome.noHandler
        ("No handler registered for event type: " ++ eventUnknown.eventType),
        []) :=
  ⟨by decide,
    (C1_unregistered_event_type userHandlers eventUnknown (by decide)).2⟩

/-- C2: before any registration, each of the six known event types is
mapped to the default logging handler, and dispatching an event carrying
any of those six types invokes that handler and returns normally. -/
theorem C2_default_registry (e : RecurrenteWebhookEvent)
    (h : e.eventType ∈ knownEventTypes) :
    lookupHandler userHandlers e.eventType = some defaultHandler ∧
    handleWebhookEvent userHandlers e =
      (DispatchOutcome.ok, [(defaultHandler, e)]) := by
  have hl : lookupHandler userHandlers e.eventType = some defaultHandler := by
    simp only [knownEventTypes, List.mem_cons, List.not_mem_nil, or_false] at h
    rcases h with h | h | h | h | h | h <;>
      simp [lookupHandler, userHandlers, h]
  refine ⟨hl, ?_⟩
  simp [handleWebhookEvent, hl, handlerRun, defaultHandler]

/-- Witness for C2 at a concrete `subscription.cancel` event. -/
theorem C2_default_registry_witness :
    eventCancel.eventType ∈ knownEventTypes ∧
    handleWebhookEvent userHandlers eventCancel =
      (DispatchOutcome.ok, [(defaultHandler, eventCancel)]) :=
  ⟨by decide, (C2_default_registry eventCancel (by decide)).2⟩

/-- C3: after registering h1 and then h2 for the same tag, the registry
maps the tag to h2 (last write wins, registration never fails), and
dispatching an event of that type invokes h2 with the event and nothing
else — in particular never h1. -/
theorem C3_register_last_write_wins (t : String) (h1 h2 : Handler)
    (reg : Registry) (e : RecurrenteWebhookEvent) (he : e.eventType = t) :
    lookupHandler
      (registerWebhookHandler t h2 (registerWebhookHandler t h1 reg)) t =
      some h2 ∧
    handleWebhookEvent
      (registerWebhookHandler t h2 (registerWebhookHandler t h1 reg)) e =
      (handlerRun h2 e, [(h2, e)]) := by
  have hl := lookupHandler_register_same
    (t := t) (h := h2) (registerWebhookHandler t h1 reg)
  refine ⟨hl, ?_⟩
  simp [handleWebhookEvent, he, hl]

/-- Witness for C3: overwriting the "payment_intent.succeeded" handler in
the initial registry and dispatching an event of that type runs only the
second handler, whose fault is reported. -/
theorem C3_register_last_write_wins_witness :
    eventPi.eventType = "payment_intent.succeeded" ∧
    handleWebhookEvent
      (registerWebhookHandler ("payment_intent.succeeded") hDemo2
        (registerWebhookHandler ("payment_intent.succeeded") hDemo1
          userHandlers)) eventPi =
      (handlerRun hDemo2 eventPi, [(hDemo2, eventPi)]) :=
  ⟨rfl, (C3_register_last_write_wins ("payment_intent.succeeded") hDemo1 hDemo2
    userHandlers eventPi rfl).2⟩

/-- C8: when a handler is registered for the event's type, dispatch
invokes exactly that handler synchronously with the event; the call
returns normally precisely when the handler completes without faulting,
and a handler fault propagates to the caller unswallowed. -/
theorem C8_handler_faults_propagate (reg : Registry)
    (e : RecurrenteWebhookEvent) (h : Handler)
    (hl : lookupHandler reg e.eventType = some h) :
    (handleWebhookEvent reg e).2 = [(h, e)] ∧
    ((handleWebhookEvent reg e).1 = DispatchOutcome.ok ↔
      h e = Except.ok ()) ∧
    (∀ f, h e = Except.error f →
      (handleWebhookEvent reg e).1 = DispatchOutcome.handlerFault f) := by
  refine ⟨by simp [handleWebhookEvent, hl], ?_, ?_⟩
  · simp only [handleWebhookEvent, hl, handlerRun]
    cases hres : h e with
    | ok u => cases u; simp
    | error f => simp
  · intro f hf
    simp [handleWebhookEvent, hl, handlerRun, hf]

/-- Witness for C8: the faulting demo handler registered for
"subscription.cancel" makes dispatch surface its fault. -/
theorem C8_handler_faults_propagate_witness :
    lookupHandler (registerWebhookHandler ("subscription.cancel") hDemo2
      userHandlers) eventCancel.eventType = some hDemo2 ∧
    (handleWebhookEvent (registerWebhookHandler ("subscription.cancel") hDemo2
      userHandlers) eventCancel).1 =
      DispatchOutcome.handlerFault ("second handler ran") :=
  ⟨rfl,
    (C8_handler_faults_propagate
      (registerWebhookHandler ("subscription.cancel") hDemo2 userHandlers)
      eventCancel hDemo2 rfl).2.2 ("second handler ran") rfl⟩

theorem splitOnChar_no_sep {sep : Char} :
    (l : List Char) → (∀ c ∈ l, c ≠ sep) → splitOnChar sep l = [l]
  | [], _ => rfl
  | c :: rest, h => by
    have hc : c ≠ sep := h c (List.mem_cons_self _ _)
    have hrest := splitOnChar_no_sep rest
      (fun d hd => h d (List.mem_cons_of_mem _ hd))
    simp only [splitOnChar, hrest, if_neg hc]

theorem signatureEntries_no_space {s : String}
    (h : ∀ c ∈ s.data, c ≠ ' ') : signatureEntries s = [s] := by
  simp only [signatureEntries, splitOnChar_no_sep s.data h, List.map_cons,
    List.map_nil]

theorem lookupField_assignField_ne {k k2 : String} {v2 : Json}
    (hne : k2 ≠ k) :
    (acc : List (String × Json)) →
    lookupField (assignField acc k2 v2) k = lookupField acc k
  | [] => by simp [assignField, lookupField, hne]
  | (a, b) :: rest => by
    by_cases ha2 : a = k2
    · subst ha2
      simp only [assignField, if_pos rfl, lookupField]
      rw [if_neg hne, if_neg hne]
    · simp only [assignField, if_neg ha2, lookupField]
      by_cases hak : a = k
      · simp [if_pos hak]
      · simp only [if_neg hak]
        exact lookupField_assignField_ne hne rest

theorem lookupField_foldl_assign {k : String} :
    (l : List (String × Json)) → (acc : List (String × Json)) →
    (∀ kv ∈ l, kv.1 ≠ k) →
    lookupField (List.foldl (fun a kv => assignField a kv.1 kv.2) acc l) k =
      lookupField acc k
  | [], _, _ => rfl
  | (k2, v2) :: rest, acc, h => by
    have hk2 : k2 ≠ k := h (k2, v2) (List.mem_cons_self _ _)
    have hrest := lookupField_foldl_assign rest (assignField acc k2 v2)
      (fun kv hkv => h kv (List.mem_cons_of_mem _ hkv))
    rw [List.foldl_cons, hrest, lookupField_assignField_ne hk2 acc]

theorem lookupField_dedupAssign_head {k : String} {v : Json}
    {l : List (String × Json)} (h : ∀ kv ∈ l, kv.1 ≠ k) :
    lookupField (dedupAssign ((k, v) :: l)) k = some v := by
  show lookupField
    (List.foldl (fun a kv => assignField a kv.1 kv.2)
      (assignField [] k v) l) k = some v
  rw [lookupField_foldl_assign l (assignField [] k v) h]
  simp [assignField, lookupField]

theorem toCamelCaseFields_keys_ne {key : String} :
    (fs : List (String × Json)) → (∀ kv ∈ fs, camelKey kv.1 ≠ key) →
    ∀ kv2 ∈ toCamelCaseFields fs, kv2.1 ≠ key
  | [], _, kv2, h2 => absurd h2 (List.not_mem_nil kv2)
  | (k, v) :: fs, h, kv2, h2 => by
    simp only [toCamelCaseFields] at h2
    rcases List.mem_cons.mp h2 with h3 | h3
    · rw [h3]
      exact h (k, v) (List.mem_cons_self _ _)
    · exact toCamelCaseFields_keys_ne fs
        (fun kv hkv => h kv (List.mem_cons_of_mem _ hkv)) kv2 h3

/-- C4: when the secret is configured and the headers carry an id, a
timestamp within tolerance and a signature computed with that secret over
`id.timestamp.payload`, verification succeeds and returns the parsed
payload with every mapping key converted from snake_case to camelCase,
and the returned event's `eventType` field equals the payload's declared
`event_type`. -/
theorem C4_valid_triple_verifies (mac : String → String → String)
    (parse : String → Option Json) (secret : String) (hsec : secret ≠ "")
    (msgId ts : String) (t : Int) (hts : parseTimestamp ts = some t)
    (now : Int) (tol : Nat) (htol : (now - t).natAbs ≤ tol)
    (payload ty : String) (fs : List (String × Json))
    (hmac : ∀ c ∈ (mac secret (msgId ++ "." ++ ts ++ "." ++ payload)).data,
      c ≠ ' ')
    (hparse : parse payload =
      some (Json.obj (("event_type", Json.str ty) :: fs)))
    (hnoclash : ∀ kv ∈ fs, camelKey kv.1 ≠ "eventType") :
    verifySvixSignature mac parse (some secret) now tol payload
      ⟨some msgId, some ts,
        some ("v1," ++ mac secret (msgId ++ "." ++ ts ++ "." ++ payload))⟩ =
      Except.ok (toCamelCase (Json.obj (("event_type", Json.str ty) :: fs))) ∧
    getField (toCamelCase (Json.obj (("event_type", Json.str ty) :: fs)))
      "eventType" = some (Json.str ty) := by
  have hspace : ∀ c ∈
      ("v1," ++ mac secret (msgId ++ "." ++ ts ++ "." ++ payload)).data,
      c ≠ ' ' := by
    intro c hc
    have hdata :
        ("v1," ++ mac secret (msgId ++ "." ++ ts ++ "." ++ payload)).data =
          'v' :: '1' :: ',' ::
            (mac secret (msgId ++ "." ++ ts ++ "." ++ payload)).data := rfl
    rw [hdata] at hc
    simp only [List.mem_cons] at hc
    rcases hc with h1 | h1 | h1 | h1
    · rw [h1]
      decide
    · rw [h1]
      decide
    · rw [h1]
      decide
    · exact hmac c h1
  have hsvix : svixVerify mac parse secret now tol payload
      ⟨some msgId, some ts,
        some ("v1," ++ mac secret (msgId ++ "." ++ ts ++ "." ++ payload))⟩ =
      Except.ok (Json.obj (("event_type", Json.str ty) :: fs)) := by
    simp only [svixVerify, hts, if_pos htol, signatureEntries_no_space hspace,
      List.any_cons, List.any_nil, hparse]
    simp
  have hmain : verifySvixSignature mac parse (some secret) now tol payload
      ⟨some msgId, some ts,
        some ("v1," ++ mac secret (msgId ++ "." ++ ts ++ "." ++ payload))⟩ =
      Except.ok (toCamelCase (Json.obj (("event_type", Json.str ty) :: fs))) := by
    simp only [verifySvixSignature, Option.getD_some]
    rw [if_neg hsec, hsvix]
  refine ⟨hmain, ?_⟩
  have hfields : toCamelCase (Json.obj (("event_type", Json.str ty) :: fs)) =
      Json.obj (dedupAssign
        (("eventType", Json.str ty) :: toCamelCaseFields fs)) := by
    simp only [toCamelCase, toCamelCaseFields]
    rw [show camelKey ("event_type") = "eventType" from rfl]
  rw [hfields]
  simp only [getField]
  exact lookupField_dedupAssign_head (toCamelCaseFields_keys_ne fs hnoclash)

/-- Witness for C4 at the specification's example: secret "whsec_test",
payload declaring `subscription.cancel`, matching headers. -/
theorem C4_valid_triple_verifies_witness :
    parseTimestamp ("0") = some 0 ∧
    ((0 : Int) - 0).natAbs ≤ 300 ∧
    parseDemo ("oops") = some (Json.obj [("event_type",
      Json.str ("subscription.cancel")), ("customer_id", Json.str ("cus_1"))]) ∧
    verifySvixSignature macDemo parseDemo (some ("whsec_test")) 0 300 ("oops")
      headersGoodDemo =
      Except.ok (toCamelCase (Json.obj [("event_type",
        Json.str ("subscription.cancel")),
        ("customer_id", Json.str ("cus_1"))])) ∧
    getField (toCamelCase (Json.obj [("event_type",
      Json.str ("subscription.cancel")), ("customer_id", Json.str ("cus_1"))]))
      "eventType" = some (Json.str ("subscription.cancel")) := by
  have h := C4_valid_triple_verifies macDemo parseDemo ("whsec_test")
    (by decide) "id1" "0" 0 rfl 0 300 (by decide) "oops"
    "subscription.cancel" [("customer_id", Json.str ("cus_1"))]
    (by decide) rfl (by decide)
  exact ⟨rfl, by decide, rfl, h.1, h.2⟩

/-- C5: whenever the secret is configured and the svix verification step
fails — for any cause: missing or malformed headers, a stale timestamp, a
signature mismatch — `verifySvixSignature` throws the one generic
invalid-signature error, which carries no information about the cause. -/
theorem C5_generic_verification_error (mac : String → String → String)
    (parse : String → Option Json) (secret : String) (hsec : secret ≠ "")
    (now : Int) (tol : Nat) (payload : String) (headers : SvixHeaders)
    (e : SvixError)
    (herr : svixVerify mac parse secret now tol payload headers =
      Except.error e) :
    verifySvixSignature mac parse (some secret) now tol payload headers =
      Except.error VerifyError.invalidSignature := by
  simp only [verifySvixSignature, Option.getD_some]
  rw [if_neg hsec, herr]

/-- Witness for C5: entirely missing headers surface as the generic
invalid-signature error. -/
theorem C5_generic_verification_error_witness :
    ("whsec_test" : String) ≠ "" ∧
    svixVerify macDemo parseDemo ("whsec_test") 0 300 ("x") ⟨none, none, none⟩ =
      Except.error SvixError.missingHeaders ∧
    verifySvixSignature macDemo parseDemo (some ("whsec_test")) 0 300 ("x")
      ⟨none, none, none⟩ = Except.error VerifyError.invalidSignature :=
  ⟨by decide, rfl,
    C5_generic_verification_error macDemo parseDemo ("whsec_test") (by decide)
      0 300 ("x") ⟨none, none, none⟩ SvixError.missingHeaders rfl⟩

/-- C6 counterexample: with headers whose signature matches the payload
"oops" but a parser that rejects it, the svix stage fails with a parse
failure, yet `verifySvixSignature` surfaces exactly the same generic
invalid-signature error that a signature mismatch produces — not a
distinct parse error. -/
theorem C6_parse_error_counterexample :
    svixVerify macDemo parseNone ("whsec_test") 0 300 ("oops") headersGoodDemo =
      Except.error SvixError.parseFailure ∧
    verifySvixSignature macDemo parseNone (some ("whsec_test")) 0 300 ("oops")
      headersGoodDemo = Except.error VerifyError.invalidSignature ∧
    verifySvixSignature macDemo parseNone (some ("whsec_test")) 0 300 ("oops")
      headersBadSigDemo = Except.error VerifyError.invalidSignature :=
  ⟨rfl, rfl, rfl⟩

/-- C6 (amended): when the signature verifies but the payload is not
well-formed structured data, `verifySvixSignature` fails — but with the
same single generic invalid-signature error used for verification
failures; the catch-all rethrow surfaces no distinct parse failure
mode. -/
theorem C6_parse_error_amended (mac : String → String → String)
    (parse : String → Option Json) (secret : String) (hsec : secret ≠ "")
    (now : Int) (tol : Nat) (payload : String) (headers : SvixHeaders)
    (hstage : svixVerify mac parse secret now tol payload headers =
      Except.error SvixError.parseFailure) :
    verifySvixSignature mac parse (some secret) now tol payload headers =
      Except.error VerifyError.invalidSignature := by
  simp only [verifySvixSignature, Option.getD_some]
  rw [if_neg hsec, hstage]

/-- Witness for the amended C6 at the well-signed unparseable input. -/
theorem C6_parse_error_amended_witness :
    ("whsec_test" : String) ≠ "" ∧
    svixVerify macDemo parseNone ("whsec_test") 0 300 ("oops") headersGoodDemo =
      Except.error SvixError.parseFailure ∧
    verifySvixSignature macDemo parseNone (some ("whsec_test")) 0 300 ("oops")
      headersGoodDemo = Except.error VerifyError.invalidSignature :=
  ⟨by decide, rfl,
    C6_parse_error_amended macDemo parseNone ("whsec_test") (by decide)
      0 300 ("oops") headersGoodDemo rfl⟩

/-- C7: with no signing secret configured, every call fails with the
missing-secret configuration error, whatever the keyed hash, parser,
clock, payload and headers are — no verification work is reachable. -/
theorem C7_missing_secret (mac : String → String → String)
    (parse : String → Option Json) (now : Int) (tol : Nat)
    (payload : String) (headers : SvixHeaders) :
    verifySvixSignature mac parse none now tol payload headers =
      Except.error VerifyError.missingSecret := by
  simp [verifySvixSignature]

end Recurrente
